import Mathlib

/-!
Verification of the layered fake-news decision engine in `src/models/Main.py`.

The Python source is shallowly embedded:

* strings are `List Char`; Python `re.sub` is embedded through a small
  backtracking regular-expression matcher (`allMatches`) with Python's
  priority semantics (leftmost position, alternation tried left to right,
  greedy repetition), specialised to the six patterns of
  `clean_text_harmonized`;
* floats are modelled as exact rationals `ℚ`; `np.exp` is an abstract
  strictly positive function packaged in `Floats` (floating-point `exp`
  returns positive finite values, which is the only property the code
  relies on);
* `round(x, 2)` is `round2` (round to nearest at two decimals);
* scikit-learn estimators are records of the capabilities the code reads
  (`predict`, optional `predict_proba`, `decision_function`, `classes_`,
  optional `coef_`), the vectorizer is an abstract `transform` into an
  abstract vector type `V`;
* Python exceptions (IndexError on list indexing, ValueError from
  `list.index` and from the truth test of `pd.isnull` on an array-like
  input, AttributeError from calling `.strip` on an int, TypeError from
  `round(None, 2)`) are an `Except PyExn` result.
-/

/-- Python exceptions that the embedded code can raise. -/
inductive PyExn where
  | typeError
  | indexError
  | valueError
  | attributeError
deriving DecidableEq, Repr

/-- JSON-like values returned by the endpoint (Python dict/list/str/float/None). -/
inductive PyValue where
  | null
  | str (s : List Char)
  | num (q : ℚ)
  | arr (l : List PyValue)
  | obj (l : List (List Char × PyValue))

/-- Shorthand: a Lean string literal as a Python string (list of chars). -/
def lc (s : String) : List Char := s.data

/-! ### Python character classes (ASCII model of `re` classes) -/

/-- Python `\s` (ASCII fragment): space, tab, newline, carriage return,
vertical tab, form feed. -/
def isSpacePy (c : Char) : Bool :=
  c == ' ' || c == '\t' || c == '\n' || c == '\r' || c == '\x0b' || c == '\x0c'

/-- Python `\w` (ASCII fragment): letters, digits and underscore. -/
def isWordChar (c : Char) : Bool := c.isAlphanum || c == '_'

/-- Python `\S`. -/
def isNonSpacePy (c : Char) : Bool := !(isSpacePy c)

/-! ### A tiny backtracking regex engine with Python match priority -/

/-- Regular expressions as used by the six patterns of
`clean_text_harmonized`: character classes, concatenation, alternation,
greedy Kleene star and the word boundary `\b`. -/
inductive Regex where
  | eps
  | cls (p : Char → Bool)
  | cat (a b : Regex)
  | alt (a b : Regex)
  | star (r : Regex)
  | wordB

/-- Is there a `\b` boundary between the previous character and the head of
the remaining input? -/
def wordBoundary (prev : Option Char) (s : List Char) : Bool :=
  (match prev with | none => false | some c => isWordChar c) !=
  (match s with | [] => false | c :: _ => isWordChar c)

/-- One layer of the backtracking matcher, structural on the regex; star
iteration is delegated to `rec` so that the whole matcher is structural
recursion on a fuel counter (and therefore kernel-computable).  Results
are listed in Python's backtracking priority order (alternatives left to
right, star greedy).  Each result is the last character consumed (or
`prev` when nothing was consumed) together with the remaining suffix. -/
def allMatchesF (rec : Regex → Option Char → List Char → List (Option Char × List Char)) :
    Regex → Option Char → List Char → List (Option Char × List Char)
  | Regex.eps, prev, s => [(prev, s)]
  | Regex.cls p, _, s =>
      match s with
      | [] => []
      | c :: t => if p c then [(some c, t)] else []
  | Regex.cat a b, prev, s =>
      (allMatchesF rec a prev s).flatMap (fun x => allMatchesF rec b x.1 x.2)
  | Regex.alt a b, prev, s =>
      allMatchesF rec a prev s ++ allMatchesF rec b prev s
  | Regex.wordB, prev, s =>
      if wordBoundary prev s then [(prev, s)] else []
  | Regex.star r, prev, s =>
      ((allMatchesF rec r prev s).flatMap (fun x => rec (Regex.star r) x.1 x.2)) ++ [(prev, s)]

/-- All ways a regex can match a prefix of `s`.  `fuel` bounds the number
of star iterations; every starred subexpression of the patterns below
consumes at least one character per iteration, so `s.length + 1` fuel is
exact. -/
def allMatches : Nat → Regex → Option Char → List Char → List (Option Char × List Char)
  | 0, _, prev, s => [(prev, s)]
  | fuel + 1, r, prev, s => allMatchesF (allMatches fuel) r prev s

/-- The match Python's engine would pick at the current position, if any. -/
def headMatch (r : Regex) (prev : Option Char) (s : List Char) :
    Option (Option Char × List Char) :=
  (allMatches (s.length + 1) r prev s).head?

/-- The position scan of `re.sub`, structural on a fuel counter that
dominates the length of the remaining input. -/
def reSubGo (r : Regex) (rep : List Char) : Nat → Option Char → List Char → List Char
  | 0, _, _ => []
  | fuel + 1, prev, s =>
      match headMatch r prev s with
      | some x =>
          if x.2.length < s.length then rep ++ reSubGo r rep fuel x.1 x.2
          else
            match s with
            | [] => rep
            | c :: t => rep ++ c :: reSubGo r rep fuel (some c) t
      | none =>
          match s with
          | [] => []
          | c :: t => c :: reSubGo r rep fuel (some c) t

/-- `re.sub(r, rep, s)`: scan positions left to right, replace each match
with `rep` and continue after it (with Python's zero-width-match rule,
never exercised by the patterns below). -/
def reSub (r : Regex) (rep : List Char) (prev : Option Char) (s : List Char) : List Char :=
  reSubGo r rep (s.length + 1) prev s

/-! ### The six substitution patterns of `clean_text_harmonized` -/

/-- A literal character. -/
def rchar (c : Char) : Regex := Regex.cls (fun d => d == c)

/-- A literal string. -/
def rstr (s : List Char) : Regex :=
  s.foldr (fun c r => Regex.cat (rchar c) r) Regex.eps

/-- `r+` (greedy). -/
def rplus (r : Regex) : Regex := Regex.cat r (Regex.star r)

/-- `http\S+|www\S+|\S+\.com\S+|rss\s*2\.0|\bcomments\b|\bpinging\b|filed under\b` -/
def pat1 : Regex :=
  Regex.alt (Regex.cat (rstr (lc "http")) (rplus (Regex.cls isNonSpacePy)))
    (Regex.alt (Regex.cat (rstr (lc "www")) (rplus (Regex.cls isNonSpacePy)))
      (Regex.alt
        (Regex.cat (rplus (Regex.cls isNonSpacePy))
          (Regex.cat (rstr (lc ".com")) (rplus (Regex.cls isNonSpacePy))))
        (Regex.alt
          (Regex.cat (rstr (lc "rss"))
            (Regex.cat (Regex.star (Regex.cls isSpacePy)) (rstr (lc "2.0"))))
          (Regex.alt
            (Regex.cat Regex.wordB (Regex.cat (rstr (lc "comments")) Regex.wordB))
            (Regex.alt
              (Regex.cat Regex.wordB (Regex.cat (rstr (lc "pinging")) Regex.wordB))
              (Regex.cat (rstr (lc "filed under")) Regex.wordB))))))

/-- `\b\d+\s*(read|file|link)\S*` -/
def pat2 : Regex :=
  Regex.cat Regex.wordB
    (Regex.cat (rplus (Regex.cls Char.isDigit))
      (Regex.cat (Regex.star (Regex.cls isSpacePy))
        (Regex.cat
          (Regex.alt (rstr (lc "read")) (Regex.alt (rstr (lc "file")) (rstr (lc "link"))))
          (Regex.star (Regex.cls isNonSpacePy)))))

/-- `[^\w\s]` -/
def pat3 : Regex := Regex.cls (fun c => !(isWordChar c || isSpacePy c))

/-- `\d+` -/
def pat4 : Regex := rplus (Regex.cls Char.isDigit)

/-- `[^a-zA-Z\s]` -/
def pat5 : Regex := Regex.cls (fun c => !(c.isAlpha || isSpacePy c))

/-- `\s+` -/
def pat6 : Regex := rplus (Regex.cls isSpacePy)

/-! ### `clean_text_harmonized` -/

/-- Python `str.lower()` on the ASCII range (non-ASCII characters are in
any case erased by the `[^a-zA-Z\s]` pass before they can matter). -/
def toLowerA (c : Char) : Char :=
  if c.isUpper then Char.ofNat (c.toNat + 32) else c

/-- `dropWhile` from the right. -/
def dropRightWhile (p : Char → Bool) (l : List Char) : List Char :=
  (l.reverse.dropWhile p).reverse

/-- Python `str.strip()`. -/
def pyStrip (l : List Char) : List Char :=
  dropRightWhile isSpacePy (l.dropWhile isSpacePy)

/-- Python `str.strip('"')`: remove every leading and trailing `"`. -/
def stripQuotes (l : List Char) : List Char :=
  dropRightWhile (fun c => c == '"') (l.dropWhile (fun c => c == '"'))

/-- The body of `clean_text_harmonized` on an actual string: lowercase,
then the six `re.sub` passes, then `strip()`. -/
def clean_text_harmonized (text : List Char) : List Char :=
  let t1 := text.map toLowerA
  let t2 := reSub pat1 [' '] none t1
  let t3 := reSub pat2 [' '] none t2
  let t4 := reSub pat3 [' '] none t3
  let t5 := reSub pat4 [' '] none t4
  let t6 := reSub pat5 [' '] none t5
  let t7 := reSub pat6 [' '] none t6
  pyStrip t7

/-- A request value as seen by the guard
`pd.isnull(text) or not isinstance(text, str)`: a proper string
(`pd.isnull` is False), `None`/NaN (`pd.isnull` is True), a non-string
scalar such as an int (`pd.isnull` is False, `isinstance` fails), or an
array-like value such as a list/tuple/ndarray of several elements, for
which `pd.isnull` returns a boolean ndarray whose truth test in `or`
raises `ValueError`. -/
inductive PyInput where
  | str (s : List Char)
  | nullLike
  | scalarNonString
  | arrayLike

/-- `clean_text_harmonized` including its guard: strings are normalized,
`None`/NaN and non-string scalars short-circuit to `""`, and array-like
inputs raise `ValueError` at the truth test of `pd.isnull`. -/
def clean_text_input : PyInput → Except PyExn (List Char)
  | PyInput.str s => Except.ok (clean_text_harmonized s)
  | PyInput.nullLike => Except.ok []
  | PyInput.scalarNonString => Except.ok []
  | PyInput.arrayLike => Except.error PyExn.valueError

/-! ### Numeric model -/

/-- Abstract model of the floating-point `np.exp` used by the fallback
confidence arithmetic.  The only property of floating `exp` the code
relies on is that its values are strictly positive. -/
structure Floats where
  exp : ℚ → ℚ
  exp_pos : ∀ x : ℚ, 0 < exp x

/-- Python `round(q, 2)`. -/
def round2 (q : ℚ) : ℚ := ((round (q * 100) : ℤ) : ℚ) / 100

/-- Python `round(q, 4)`. -/
def round4 (q : ℚ) : ℚ := ((round (q * 10000) : ℤ) : ℚ) / 10000

/-! ### scikit-learn collaborators, as the capabilities the code reads -/

/-- `model.decision_function(vector)[0]`: a scalar margin for a binary
LinearSVC, a per-class margin vector for a multi-class one. -/
inductive DecisionScores where
  | scalar (s : ℚ)
  | vector (scores : List ℚ)

/-- The first component returned by `get_svc_confidence_fallback`: the
Python int `1`/`0` in the binary case, a class label in the multi-class
case. -/
inductive FallbackPrediction where
  | int (n : Nat)
  | label (l : List Char)
deriving DecidableEq

/-- The shared fitted vectorizer. -/
structure Vectorizer (V : Type) where
  transform : List Char → V
  get_feature_names_out : List (List Char)

/-- A pre-trained classifier: `predict_proba` is optional (`hasattr`),
`decision_function` yields the row for the single input vector. -/
structure SkModel (V : Type) where
  predict : V → List Char
  predict_proba : Option (V → List ℚ)
  decision_function : V → DecisionScores
  classes_ : List (List Char)
  coef_ : Option (List (List ℚ))

/-! ### Small Python list/dict operations -/

/-- Python `l[n]` (raises `IndexError` out of range). -/
def pyNth {α : Type} (l : List α) (n : Nat) : Except PyExn α :=
  match l[n]? with
  | some a => Except.ok a
  | none => Except.error PyExn.indexError

/-- Python `list.index` (raises `ValueError` when absent). -/
def pyIndexOf (cs : List (List Char)) (x : List Char) : Except PyExn Nat :=
  match cs with
  | [] => Except.error PyExn.valueError
  | c :: t =>
      if c = x then Except.ok 0
      else
        match pyIndexOf t x with
        | Except.ok n => Except.ok (n + 1)
        | Except.error e => Except.error e

/-- `list(classes_).index(gran_label)` where `gran_label` may be the int
from the binary fallback (never equal to a string label). -/
def pyIndexOfPred (cs : List (List Char)) : FallbackPrediction → Except PyExn Nat
  | FallbackPrediction.int _ => Except.error PyExn.valueError
  | FallbackPrediction.label l => pyIndexOf cs l

/-- `gran_label.strip('"')`: ints have no `.strip` (AttributeError). -/
def pyStripLabel : FallbackPrediction → Except PyExn (List Char)
  | FallbackPrediction.int _ => Except.error PyExn.attributeError
  | FallbackPrediction.label l => Except.ok (stripQuotes l)

/-- One Python dict insertion: overwrite in place when the key exists,
append otherwise. -/
def dictInsert (d : List (List Char × ℚ)) (k : List Char) (v : ℚ) : List (List Char × ℚ) :=
  match d with
  | [] => [(k, v)]
  | (k', v') :: t => if k' = k then (k', v) :: t else (k', v') :: dictInsert t k v

/-- The dict comprehension
`{cls.strip('"'): round(p*100, 2) for cls, p in zip(classes, probs)}`
used by both the softmax fallback and the `predict_proba` path. -/
def mkAllClassConfidences (classes : List (List Char)) (probs : List ℚ) :
    List (List Char × ℚ) :=
  (classes.zip probs).foldl (fun d cp => dictInsert d (stripQuotes cp.1) (round2 (cp.2 * 100))) []

/-- A per-class confidence dict as a JSON object value. -/
def objOfConf (d : List (List Char × ℚ)) : PyValue :=
  PyValue.obj (d.map (fun kv => (kv.1, PyValue.num kv.2)))

/-- `np.argmax`: index of the first occurrence of the maximum. -/
def npArgmax : List ℚ → Nat
  | [] => 0
  | [_] => 0
  | x :: y :: t =>
      let j := npArgmax (y :: t)
      if x < (y :: t).getD j 0 then j + 1 else 0

/-- `np.max`. -/
def npMax : List ℚ → ℚ
  | [] => 0
  | x :: t => t.foldl max x

/-! ### `get_svc_confidence_fallback` -/

/-- Embedding of `get_svc_confidence_fallback(model, vector)`: returns
`(prediction, C_True, C_Predicted, all_class_confidences)`.
`np.argmax` on an empty margin vector raises ValueError. -/
def get_svc_confidence_fallback {V : Type} (F : Floats) (model : SkModel V) (vector : V) :
    Except PyExn (FallbackPrediction × Option ℚ × ℚ × Option (List (List Char × ℚ))) :=
  match model.decision_function vector with
  | DecisionScores.scalar decision_score =>
      let C_True := 1 / (1 + F.exp (-decision_score)) * 100
      let prediction : Nat := if 50 ≤ C_True then 1 else 0
      let C_Predicted := if prediction = 1 then C_True else 100 - C_True
      Except.ok (FallbackPrediction.int prediction, some C_True, C_Predicted, none)
  | DecisionScores.vector decision_scores =>
      if decision_scores = [] then Except.error PyExn.valueError
      else
        let predicted_index := npArgmax decision_scores
        match pyNth model.classes_ predicted_index with
        | Except.error e => Except.error e
        | Except.ok predicted_class =>
            let e_x := decision_scores.map (fun z => F.exp (z - npMax decision_scores))
            let softmax_probs := e_x.map (fun e => e / e_x.sum)
            match pyNth softmax_probs predicted_index with
            | Except.error e => Except.error e
            | Except.ok ptop =>
                Except.ok (FallbackPrediction.label predicted_class, none, ptop * 100,
                  some (mkAllClassConfidences model.classes_ softmax_probs))

/-! ### The layered decision engine -/

/-- The binary stage of `layered_predict` (lines 128-138): calibrated
`predict_proba` when available, otherwise the fallback.  Returns
`(prediction, C_True?, bin_conf_predicted)`. -/
def binaryScore {V : Type} (F : Floats) (bm : SkModel V) (vec : V) :
    Except PyExn (FallbackPrediction × Option ℚ × ℚ) :=
  match bm.predict_proba with
  | some pp =>
      match pyNth (pp vec) 1 with
      | Except.error e => Except.error e
      | Except.ok p1 =>
          let C_True := p1 * 100
          let bin_prediction : Nat := if 50 ≤ C_True then 1 else 0
          let bin_conf_predicted := if bin_prediction = 1 then C_True else 100 - C_True
          Except.ok (FallbackPrediction.int bin_prediction, some C_True, bin_conf_predicted)
  | none =>
      match get_svc_confidence_fallback F bm vec with
      | Except.error e => Except.error e
      | Except.ok (pred, cT, cP, _) => Except.ok (pred, cT, cP)

/-- The granular stage: label, top confidence and the per-class value
assigned to `gran_conf_all` (the initial warning dict of the Python code
is overwritten by both branches, so it never appears). -/
def granularScore {V : Type} (F : Floats) (gm : SkModel V) (gran_vec : V) :
    Except PyExn (FallbackPrediction × ℚ × PyValue) :=
  match gm.predict_proba with
  | some pp =>
      let gran_label := gm.predict gran_vec
      let gran_probs := pp gran_vec
      match pyIndexOf gm.classes_ gran_label with
      | Except.error e => Except.error e
      | Except.ok predicted_index =>
          match pyNth gran_probs predicted_index with
          | Except.error e => Except.error e
          | Except.ok p =>
              Except.ok (FallbackPrediction.label gran_label, p * 100,
                objOfConf (mkAllClassConfidences gm.classes_ gran_probs))
  | none =>
      match get_svc_confidence_fallback F gm gran_vec with
      | Except.error e => Except.error e
      | Except.ok (p, _, cTop, allc) =>
          Except.ok (p, cTop,
            match allc with
            | some d => objOfConf d
            | none => PyValue.null)

/-! ### Feature attribution -/

/-- The scan of Python `str.split()`, structural on a fuel counter that
dominates the length of the remaining input. -/
def splitWsGo : Nat → List Char → List (List Char)
  | 0, _ => []
  | _ + 1, [] => []
  | fuel + 1, c :: t =>
      if isSpacePy c then splitWsGo fuel t
      else (c :: t.takeWhile (fun d => !(isSpacePy d))) ::
           splitWsGo fuel (t.dropWhile (fun d => !(isSpacePy d)))

/-- Python `str.split()`: split on whitespace runs, dropping empties. -/
def splitWs (s : List Char) : List (List Char) := splitWsGo (s.length + 1) s

/-- Stable insertion into an index list sorted ascending by coefficient. -/
def insertByCoef (coefs : List ℚ) (i : Nat) : List Nat → List Nat
  | [] => [i]
  | j :: t =>
      if coefs.getD i 0 < coefs.getD j 0 then i :: j :: t else j :: insertByCoef coefs i t

/-- `np.argsort(coefs)`: feature indices sorted by ascending coefficient
(ties kept in index order). -/
def argsortAsc (coefs : List ℚ) : List Nat :=
  (List.range coefs.length).foldl (fun acc i => insertByCoef coefs i acc) []

/-- Python slice `l[-n:]`. -/
def lastN {α : Type} (n : Nat) (l : List α) : List α := l.drop (l.length - n)

/-- The ranked search window `np.argsort(coefs)[-200:][::-1]`. -/
def topIdxWindow (coefs : List ℚ) : List Nat := (lastN 200 (argsortAsc coefs)).reverse

/-- `[(feature_names[i], round(coefs[i], 4)) for i in idxs if feature_names[i] in input_words]` -/
def collectInputFeats (names : List (List Char)) (coefs : List ℚ)
    (words : List (List Char)) : List Nat → Except PyExn (List (List Char × ℚ))
  | [] => Except.ok []
  | i :: t =>
      match pyNth names i with
      | Except.error e => Except.error e
      | Except.ok nm =>
          if nm ∈ words then
            match pyNth coefs i with
            | Except.error e => Except.error e
            | Except.ok c =>
                match collectInputFeats names coefs words t with
                | Except.error e => Except.error e
                | Except.ok l => Except.ok ((nm, round4 c) :: l)
          else collectInputFeats names coefs words t

/-- `[(feature_names[i], round(coefs[i], 4)) for i in idxs]` -/
def collectFeats (names : List (List Char)) (coefs : List ℚ) :
    List Nat → Except PyExn (List (List Char × ℚ))
  | [] => Except.ok []
  | i :: t =>
      match pyNth names i with
      | Except.error e => Except.error e
      | Except.ok nm =>
          match pyNth coefs i with
          | Except.error e => Except.error e
          | Except.ok c =>
              match collectFeats names coefs t with
              | Except.error e => Except.error e
              | Except.ok l => Except.ok ((nm, round4 c) :: l)

/-- A feature list as the JSON value of the response. -/
def featVal (l : List (List Char × ℚ)) : PyValue :=
  PyValue.arr (l.map (fun x => PyValue.arr [PyValue.str x.1, PyValue.num x.2]))

/-- The explainability block (lines 179-196): when the granular model has
linear coefficients, rank by weight, window the top 200 and derive the
input-restricted and global top-10 lists. -/
def attribution {V : Type} (vz : Vectorizer V) (gm : SkModel V) (text_clean : List Char)
    (gran_label : FallbackPrediction) : Except PyExn (PyValue × PyValue) :=
  match gm.coef_ with
  | none =>
      Except.ok (PyValue.str (lc "Feature support not available."),
                 PyValue.str (lc "Feature support not available."))
  | some rows =>
      match pyIndexOfPred gm.classes_ gran_label with
      | Except.error e => Except.error e
      | Except.ok class_idx =>
          match pyNth rows class_idx with
          | Except.error e => Except.error e
          | Except.ok coefs =>
              let feature_names := vz.get_feature_names_out
              let top_idx := topIdxWindow coefs
              let input_words := splitWs text_clean
              match collectInputFeats feature_names coefs input_words top_idx with
              | Except.error e => Except.error e
              | Except.ok tifl =>
                  match collectFeats feature_names coefs (top_idx.take 10) with
                  | Except.error e => Except.error e
                  | Except.ok tgfl => Except.ok (featVal (tifl.take 10), featVal tgfl)

/-! ### Response payloads -/

/-- The single validation failure of the cascade. -/
def errorPayload : PyValue :=
  PyValue.obj
    [(lc "error",
      PyValue.str (lc "Input text is empty or contains only non-alphanumeric characters."))]

/-- The True-terminal response shape. -/
def trueShapePayload (binConf cTrue : ℚ) : PyValue :=
  PyValue.obj
    [ (lc "binary_prediction", PyValue.str (lc "True")),
      (lc "binary_confidence", PyValue.num binConf),
      (lc "C_True_confidence", PyValue.num cTrue),
      (lc "granular_prediction", PyValue.str (lc "N/A")),
      (lc "granular_confidence_top", PyValue.str (lc "N/A")),
      (lc "granular_confidence_all", PyValue.str (lc "N/A")),
      (lc "top_features_input", PyValue.str (lc "N/A")),
      (lc "top_features_overall", PyValue.str (lc "N/A")) ]

/-- The escalated branch of `layered_predict` (everything below the 60
threshold test). -/
def escalatedResult {V : Type} (F : Floats) (vz : Vectorizer V) (gm : SkModel V)
    (text_clean : List Char) (C_True C_True_rounded bin_conf_predicted_rounded : ℚ) :
    Except PyExn PyValue :=
  let bin_label_str := if 50 ≤ C_True then lc "Unknown / Borderline" else lc "Fake"
  let gran_vec := vz.transform text_clean
  match granularScore F gm gran_vec with
  | Except.error e => Except.error e
  | Except.ok (gran_label, gran_conf_top, gran_conf_all) =>
      match attribution vz gm text_clean gran_label with
      | Except.error e => Except.error e
      | Except.ok (top_input_features, top_global_features) =>
          match pyStripLabel gran_label with
          | Except.error e => Except.error e
          | Except.ok gran_pred_str =>
              Except.ok (PyValue.obj
                [ (lc "binary_prediction", PyValue.str bin_label_str),
                  (lc "binary_confidence", PyValue.num bin_conf_predicted_rounded),
                  (lc "C_True_confidence", PyValue.num C_True_rounded),
                  (lc "granular_prediction", PyValue.str gran_pred_str),
                  (lc "granular_confidence_top", PyValue.num (round2 gran_conf_top)),
                  (lc "granular_confidence_all", gran_conf_all),
                  (lc "top_features_input", top_input_features),
                  (lc "top_features_overall", top_global_features) ])

/-- Embedding of `layered_predict(text)`. -/
def layered_predict {V : Type} (F : Floats) (vz : Vectorizer V) (bm gm : SkModel V)
    (input : PyInput) : Except PyExn PyValue :=
  match clean_text_input input with
  | Except.error e => Except.error e
  | Except.ok text_clean =>
  if text_clean = [] then Except.ok errorPayload
  else
    let bin_vec := vz.transform text_clean
    match binaryScore F bm bin_vec with
    | Except.error e => Except.error e
    | Except.ok (_, oCTrue, bin_conf_predicted) =>
        match oCTrue with
        | none => Except.error PyExn.typeError
        | some C_True =>
            let C_True_rounded := round2 C_True
            let bin_conf_predicted_rounded := round2 bin_conf_predicted
            if 60 ≤ C_True then
              Except.ok (trueShapePayload bin_conf_predicted_rounded C_True_rounded)
            else
              escalatedResult F vz gm text_clean C_True C_True_rounded
                bin_conf_predicted_rounded

/-! ### Concrete fixtures used by witnesses and counterexamples -/

/-- A `Floats` instance whose `exp` is constantly one. -/
def expOne : Floats := ⟨fun _ => 1, fun _ => one_pos⟩

/-- A vectorizer over the trivial vector type with six feature names. -/
def unitVec : Vectorizer Unit :=
  ⟨fun _ => (), [lc "alpha", lc "bravo", lc "hello", lc "delta", lc "echo", lc "world"]⟩

/-- A calibrated binary model giving the positive class probability `p1`. -/
def binProba (p1 : ℚ) : SkModel Unit :=
  { predict := fun _ => lc "1"
    predict_proba := some (fun _ => [1 - p1, p1])
    decision_function := fun _ => DecisionScores.scalar 0
    classes_ := [lc "0", lc "1"]
    coef_ := none }

/-- An uncalibrated binary model with scalar margin `s`. -/
def binMargin (s : ℚ) : SkModel Unit :=
  { predict := fun _ => lc "1"
    predict_proba := none
    decision_function := fun _ => DecisionScores.scalar s
    classes_ := [lc "0", lc "1"]
    coef_ := none }

/-- The coefficient row of the second granular class in the fixture. -/
def granRow1 : List ℚ := [7/4, 1/3, 1/2, -2, 1, 9/8]

/-- A calibrated three-class granular model with linear coefficients. -/
def granFix : SkModel Unit :=
  { predict := fun _ => lc "\"Satire\""
    predict_proba := some (fun _ => [1/10, 6/10, 3/10])
    decision_function := fun _ => DecisionScores.vector [1, 3, 2]
    classes_ := [lc "Conspiracy", lc "\"Satire\"", lc "Hoax"]
    coef_ := some [[1/2, -1, 3/2, 0, 2, 1/4], granRow1, [0, 0, 0, 0, 0, 0]] }

/-- A granular model with no probability mechanism at all: no
`predict_proba` and a scalar (binary-style) `decision_function`. -/
def granScalar : SkModel Unit :=
  { predict := fun _ => lc "x"
    predict_proba := none
    decision_function := fun _ => DecisionScores.scalar 2
    classes_ := [lc "a", lc "b"]
    coef_ := none }

/-- A granular model whose two class labels collide after `strip('"')`. -/
def granCollapse : SkModel Unit :=
  { predict := fun _ => lc "\"a\""
    predict_proba := some (fun _ => [1/2, 1/2])
    decision_function := fun _ => DecisionScores.vector [0, 0]
    classes_ := [lc "\"a\"", lc "a"]
    coef_ := none }

/-- The output guarantee of the normalizer: only lowercase ASCII letters
and single spaces, no leading or trailing space (possibly empty). -/
def isCleanShape (l : List Char) : Prop :=
  (∀ c ∈ l, ('a' ≤ c ∧ c ≤ 'z') ∨ c = ' ') ∧
  l.Chain' (fun a b => ¬(a = ' ' ∧ b = ' ')) ∧
  l.head? ≠ some ' ' ∧ l.getLast? ≠ some ' '

/-- A calibrated two-class granular model without linear coefficients. -/
def granProbaNoCoef : SkModel Unit :=
  { predict := fun _ => lc "Hoax"
    predict_proba := some (fun _ => [3/4, 1/4])
    decision_function := fun _ => DecisionScores.vector [1, -1]
    classes_ := [lc "Hoax", lc "Satire"]
    coef_ := none }

/-! ## Theorems -/

/-- Both binary estimator paths predict the positive class exactly when
`C_True` reaches 50, and complement the confidence otherwise. -/
theorem binaryScore_complement {V : Type} (F : Floats) (bm : SkModel V) (vec : V)
    (pred : FallbackPrediction) (cT cP : ℚ)
    (h : binaryScore F bm vec = Except.ok (pred, some cT, cP)) :
    (pred = FallbackPrediction.int 1 ↔ 50 ≤ cT) ∧
    cP = if pred = FallbackPrediction.int 1 then cT else 100 - cT := by
  cases hpp : bm.predict_proba with
  | some pp =>
      simp only [binaryScore, hpp] at h
      cases hn : pyNth (pp vec) 1 with
      | error e => rw [hn] at h; exact absurd h (by simp)
      | ok p1 =>
          rw [hn] at h
          simp only [Except.ok.injEq, Prod.mk.injEq, Option.some.injEq] at h
          obtain ⟨h1, h2, h3⟩ := h
          subst h1; subst h2; subst h3
          by_cases hle : 50 ≤ p1 * 100
          · simp [hle]
          · simp [hle]
  | none =>
      simp only [binaryScore, hpp] at h
      cases hdf : bm.decision_function vec with
      | scalar s =>
          simp only [get_svc_confidence_fallback, hdf] at h
          simp only [Except.ok.injEq, Prod.mk.injEq, Option.some.injEq] at h
          obtain ⟨h1, h2, h3⟩ := h
          subst h1; subst h2; subst h3
          by_cases hle : 50 ≤ 1 / (1 + F.exp (-s)) * 100
          · simp [hle]
          · simp [hle]
      | vector scores =>
          simp only [get_svc_confidence_fallback, hdf] at h
          by_cases hsc : scores = []
          · simp only [if_pos hsc] at h; exact absurd h (by simp)
          · simp only [if_neg hsc] at h
            cases hn1 : pyNth bm.classes_ (npArgmax scores) with
            | error e => rw [hn1] at h; exact absurd h (by simp)
            | ok cl =>
                rw [hn1] at h
                cases hn2 : pyNth ((scores.map fun z => F.exp (z - npMax scores)).map
                    fun e => e / (scores.map fun z => F.exp (z - npMax scores)).sum)
                    (npArgmax scores) with
                | error e => rw [hn2] at h; exact absurd h (by simp)
                | ok pt => rw [hn2] at h; simp at h

/-- C2: on every binary path, calibrated (`predict_proba`) and fallback
(`decision_function`) alike, the predicted label is the positive class iff
`C_True >= 50.0`, and the predicted-class confidence equals `C_True` when
the predicted label is positive and `100 - C_True` otherwise. -/
theorem C2_binary_paths_complement {V : Type} (F : Floats) (bm : SkModel V) (vec : V)
    (pred : FallbackPrediction) (C_True bin_conf_predicted : ℚ)
    (h : binaryScore F bm vec = Except.ok (pred, some C_True, bin_conf_predicted)) :
    (pred = FallbackPrediction.int 1 ↔ 50 ≤ C_True) ∧
    bin_conf_predicted =
      (if pred = FallbackPrediction.int 1 then C_True else 100 - C_True) :=
  binaryScore_complement F bm vec pred C_True bin_conf_predicted h

/-- C2 witness: the calibrated path at probability 0.55. -/
theorem C2_binary_paths_complement_witness :
    (FallbackPrediction.int 1 = FallbackPrediction.int 1 ↔ 50 ≤ (55 : ℚ)) ∧
    (55 : ℚ) =
      (if FallbackPrediction.int 1 = FallbackPrediction.int 1 then (55 : ℚ) else 100 - 55) :=
  C2_binary_paths_complement expOne (binProba (11/20)) () (FallbackPrediction.int 1) 55 55
    (by norm_num [binaryScore, binProba, pyNth])

/-- C3: with no `predict_proba` and a scalar margin `s`, the estimator
computes `C_True = 100 / (1 + exp (-s))`, predicts the positive class iff
`C_True >= 50.0`, returns `C_True` if positive else `100 - C_True` as the
predicted-class confidence, and produces no per-class mapping. -/
theorem C3_scalar_fallback {V : Type} (F : Floats) (m : SkModel V) (vec : V) (s : ℚ)
    (h : m.decision_function vec = DecisionScores.scalar s) :
    get_svc_confidence_fallback F m vec =
      Except.ok
        (FallbackPrediction.int (if 50 ≤ 100 / (1 + F.exp (-s)) then 1 else 0),
         some (100 / (1 + F.exp (-s))),
         (if 50 ≤ 100 / (1 + F.exp (-s)) then 100 / (1 + F.exp (-s))
          else 100 - 100 / (1 + F.exp (-s))),
         none) := by
  have key : 1 / (1 + F.exp (-s)) * 100 = 100 / (1 + F.exp (-s)) := by ring
  simp only [get_svc_confidence_fallback, h, key]
  by_cases hle : 50 ≤ 100 / (1 + F.exp (-s))
  · simp [hle]
  · simp [hle]

/-- C3 witness: margin 2 with the constant-one `exp` gives `C_True = 50`,
a positive prediction and no mapping. -/
theorem C3_scalar_fallback_witness :
    get_svc_confidence_fallback expOne granScalar () =
      Except.ok (FallbackPrediction.int 1, some 50, 50, none) := by
  have h := C3_scalar_fallback expOne granScalar () 2 rfl
  norm_num [expOne] at h
  exact h

/-- Any successful escalated response is an object whose first field is the
`binary_prediction` display label (`Unknown / Borderline` or `Fake`). -/
theorem escalated_shape {V : Type} (F : Floats) (vz : Vectorizer V) (gm : SkModel V)
    (tc : List Char) (ct ctr bcr : ℚ) (v : PyValue)
    (h : escalatedResult F vz gm tc ct ctr bcr = Except.ok v) :
    ∃ rest, v = PyValue.obj ((lc "binary_prediction",
      PyValue.str (if 50 ≤ ct then lc "Unknown / Borderline" else lc "Fake")) :: rest) := by
  simp only [escalatedResult] at h
  cases h1 : granularScore F gm (vz.transform tc) with
  | error e => rw [h1] at h; exact absurd h (by simp)
  | ok g =>
      obtain ⟨gl, gtop, gall⟩ := g
      simp only [h1] at h
      cases h2 : attribution vz gm tc gl with
      | error e => rw [h2] at h; exact absurd h (by simp)
      | ok a =>
          obtain ⟨tif, tgf⟩ := a
          simp only [h2] at h
          cases h3 : pyStripLabel gl with
          | error e => rw [h3] at h; exact absurd h (by simp)
          | ok gp =>
              simp only [h3, Except.ok.injEq] at h
              exact ⟨_, h.symm⟩

/-- C10: in every True-terminal response, `binary_confidence` equals
`C_True_confidence` (both are `round(C_True, 2)`): the 60 gate implies the
50 decision boundary, so the predicted-class confidence is never
complemented there. -/
theorem C10_true_terminal_equal_confidences {V : Type} (F : Floats) (vz : Vectorizer V)
    (bm gm : SkModel V) (input : PyInput) (tc : List Char)
    (pred : FallbackPrediction) (ct cp : ℚ)
    (hcl : clean_text_input input = Except.ok tc)
    (hne : tc ≠ [])
    (hbin : binaryScore F bm (vz.transform tc) = Except.ok (pred, some ct, cp))
    (h60 : 60 ≤ ct) :
    cp = ct ∧
    layered_predict F vz bm gm input =
      Except.ok (trueShapePayload (round2 ct) (round2 ct)) := by
  obtain ⟨hiff, hconf⟩ := binaryScore_complement F bm _ pred ct cp hbin
  have hpos : pred = FallbackPrediction.int 1 := hiff.mpr (by linarith)
  have hcp : cp = ct := by rw [hconf, if_pos hpos]
  refine ⟨hcp, ?_⟩
  simp only [layered_predict, hcl, if_neg hne, hbin]
  rw [if_pos h60, hcp]

/-- C10 witness: probability 0.85 terminates with both confidences 85. -/
theorem C10_true_terminal_equal_confidences_witness :
    (85 : ℚ) = 85 ∧
    layered_predict expOne unitVec (binProba (17/20)) granFix (PyInput.str (lc "hello")) =
      Except.ok (trueShapePayload (round2 85) (round2 85)) :=
  C10_true_terminal_equal_confidences expOne unitVec (binProba (17/20)) granFix
    (PyInput.str (lc "hello")) (lc "hello") (FallbackPrediction.int 1) 85 85
    rfl (by decide) (by norm_num [binaryScore, binProba, pyNth]) (by norm_num)

/-- C1: with a non-empty normalization, the response is the True-terminal
shape iff the unrounded `C_True` reaches 60.0; any unrounded value below
60 escalates, even one that rounds to 60 for display. -/
theorem C1_sixty_gate {V : Type} (F : Floats) (vz : Vectorizer V) (bm gm : SkModel V)
    (input : PyInput) (tc : List Char) (pred : FallbackPrediction) (ct cp : ℚ)
    (hcl : clean_text_input input = Except.ok tc)
    (hne : tc ≠ [])
    (hbin : binaryScore F bm (vz.transform tc) = Except.ok (pred, some ct, cp)) :
    (60 ≤ ct →
      layered_predict F vz bm gm input =
        Except.ok (trueShapePayload (round2 cp) (round2 ct))) ∧
    (ct < 60 → ∀ b c : ℚ,
      layered_predict F vz bm gm input ≠ Except.ok (trueShapePayload b c)) := by
  constructor
  · intro h60
    simp only [layered_predict, hcl, if_neg hne, hbin]
    rw [if_pos h60]
  · intro hlt b c heq
    simp only [layered_predict, hcl, if_neg hne, hbin] at heq
    rw [if_neg (not_le.mpr hlt)] at heq
    cases hesc : escalatedResult F vz gm tc ct (round2 ct)
        (round2 cp) with
    | error e => rw [hesc] at heq; exact absurd heq (by simp)
    | ok v =>
        rw [hesc] at heq
        obtain ⟨rest, hv⟩ := escalated_shape F vz gm _ ct _ _ v hesc
        simp only [Except.ok.injEq] at heq
        rw [heq] at hv
        simp only [trueShapePayload, PyValue.obj.injEq, List.cons.injEq, Prod.mk.injEq,
          PyValue.str.injEq] at hv
        obtain ⟨⟨-, h1⟩, -⟩ := hv
        by_cases h50 : 50 ≤ ct
        · rw [if_pos h50] at h1; exact absurd h1 (by decide)
        · rw [if_neg h50] at h1; exact absurd h1 (by decide)

/-- C1 witness: an unrounded `C_True` of 59.999 rounds to 60.00 for
display yet still escalates. -/
theorem C1_sixty_gate_witness :
    round2 (59999/1000 : ℚ) = 60 ∧
    ∀ b c : ℚ,
      layered_predict expOne unitVec (binProba (59999/100000)) granFix
        (PyInput.str (lc "hello")) ≠ Except.ok (trueShapePayload b c) :=
  ⟨by norm_num [round2, round_eq],
   (C1_sixty_gate expOne unitVec (binProba (59999/100000)) granFix
      (PyInput.str (lc "hello")) (lc "hello") (FallbackPrediction.int 1)
      (59999/1000) (59999/1000)
      rfl (by decide) (by norm_num [binaryScore, binProba, pyNth])).2 (by norm_num)⟩

/-- C8: the response is exactly the validation-error payload iff the
normalization is empty; the short circuit consults neither the vectorizer
nor either classifier (the statement holds for every model). -/
theorem C8_empty_normalization {V : Type} (F : Floats) (vz : Vectorizer V)
    (bm gm : SkModel V) (input : PyInput) :
    (clean_text_input input = Except.ok [] →
      layered_predict F vz bm gm input = Except.ok errorPayload) ∧
    (layered_predict F vz bm gm input = Except.ok errorPayload →
      clean_text_input input = Except.ok []) := by
  constructor
  · intro hcl
    simp only [layered_predict, hcl]
    rfl
  · intro h
    cases hcl : clean_text_input input with
    | error e =>
        simp only [layered_predict, hcl] at h
        exact absurd h (by simp)
    | ok tc =>
      by_cases htc : tc = []
      · rw [htc]
      · exfalso
        simp only [layered_predict, hcl, if_neg htc] at h
        cases hbs : binaryScore F bm (vz.transform tc) with
        | error e => rw [hbs] at h; exact absurd h (by simp)
        | ok trip =>
          obtain ⟨pred, oct, cp⟩ := trip
          cases oct with
          | none => simp only [hbs] at h; exact absurd h (by simp)
          | some ct =>
              simp only [hbs] at h
              by_cases h60 : 60 ≤ ct
              · rw [if_pos h60] at h
                simp only [Except.ok.injEq] at h
                exact absurd h (by simp +decide [trueShapePayload, errorPayload])
              · rw [if_neg h60] at h
                cases hesc : escalatedResult F vz gm tc ct
                    (round2 ct) (round2 cp) with
                | error e => rw [hesc] at h; exact absurd h (by simp)
                | ok v =>
                    rw [hesc] at h
                    obtain ⟨rest, hv⟩ := escalated_shape F vz gm _ ct _ _ v hesc
                    simp only [Except.ok.injEq] at h
                    rw [h] at hv
                    simp only [errorPayload, PyValue.obj.injEq, List.cons.injEq,
                      Prod.mk.injEq, PyValue.str.injEq] at hv
                    exact absurd hv.1.1 (by decide)

/-- C8 witness: digits and punctuation only normalize to the empty string
and short-circuit to the error payload. -/
theorem C8_empty_normalization_witness :
    clean_text_input (PyInput.str (lc "...123...")) = Except.ok [] ∧
    layered_predict expOne unitVec (binProba (1/2)) granFix
      (PyInput.str (lc "...123...")) = Except.ok errorPayload :=
  ⟨rfl,
   (C8_empty_normalization expOne unitVec (binProba (1/2)) granFix
      (PyInput.str (lc "...123..."))).1 rfl⟩

/-- C9 (code bug): when the granular model exposes neither `predict_proba`
nor a per-class `decision_function` distribution, the fallback returns the
Python int `1`/`0` as the granular label and `None` as the mapping; the
initial warning dict is dead (both branches overwrite it) and the request
then crashes with AttributeError at `gran_label.strip('"')` instead of
completing with the warning marker. -/
theorem C9_no_probability_crash :
    layered_predict expOne unitVec (binProba (2/5)) granScalar (PyInput.str (lc "hello")) =
      Except.error PyExn.attributeError := by
  have hcl : clean_text_input (PyInput.str (lc "hello")) = Except.ok (lc "hello") := rfl
  have hne : (lc "hello" = ([] : List Char)) = False := eq_false (by decide)
  have hbs : binaryScore expOne (binProba (2/5)) (unitVec.transform (lc "hello")) =
      Except.ok (FallbackPrediction.int 0, some 40, 60) := by
    norm_num [binaryScore, binProba, pyNth]
  have h60 : (60 ≤ (40 : ℚ)) = False := eq_false (by norm_num)
  have hgs : granularScore expOne granScalar (unitVec.transform (lc "hello")) =
      Except.ok (FallbackPrediction.int 1, 50, PyValue.null) := by
    norm_num [granularScore, get_svc_confidence_fallback, granScalar, expOne]
  have hcoef : granScalar.coef_ = none := rfl
  simp only [layered_predict, hcl, hne, if_false, hbs, h60, escalatedResult, hgs,
    attribution, hcoef, pyStripLabel]

/-- Attribution outputs are either feature arrays or the explicit
"Feature support not available." marker, never the `"N/A"` placeholder. -/
theorem attribution_not_na {V : Type} (vz : Vectorizer V) (gm : SkModel V)
    (tc : List Char) (gl : FallbackPrediction) (a b : PyValue)
    (h : attribution vz gm tc gl = Except.ok (a, b)) :
    a ≠ PyValue.str (lc "N/A") ∧ b ≠ PyValue.str (lc "N/A") := by
  cases hco : gm.coef_ with
  | none =>
      simp only [attribution, hco, Except.ok.injEq, Prod.mk.injEq] at h
      obtain ⟨h1, h2⟩ := h
      rw [← h1, ← h2]
      constructor <;> · intro hx; simp only [PyValue.str.injEq] at hx; exact absurd hx (by decide)
  | some rows =>
      simp only [attribution, hco] at h
      cases h1 : pyIndexOfPred gm.classes_ gl with
      | error e => rw [h1] at h; exact absurd h (by simp)
      | ok ci =>
          simp only [h1] at h
          cases h2 : pyNth rows ci with
          | error e => rw [h2] at h; exact absurd h (by simp)
          | ok coefs =>
              simp only [h2] at h
              cases h3 : collectInputFeats vz.get_feature_names_out coefs
                  (splitWs tc) (topIdxWindow coefs) with
              | error e => rw [h3] at h; exact absurd h (by simp)
              | ok tifl =>
                  simp only [h3] at h
                  cases h4 : collectFeats vz.get_feature_names_out coefs
                      ((topIdxWindow coefs).take 10) with
                  | error e => rw [h4] at h; exact absurd h (by simp)
                  | ok tgfl =>
                      simp only [h4, Except.ok.injEq, Prod.mk.injEq] at h
                      obtain ⟨h5, h6⟩ := h
                      rw [← h5, ← h6]
                      exact ⟨by simp [featVal], by simp [featVal]⟩

/-- C5: below the 60 gate the display label is `Unknown / Borderline` at
or above 50 and `Fake` below it, the granular classifier is consulted and
every granular field of the full response is populated from it (never the
`"N/A"` placeholder). -/
theorem C5_escalation_label_policy {V : Type} (F : Floats) (vz : Vectorizer V)
    (bm gm : SkModel V) (input : PyInput) (tc : List Char)
    (pred : FallbackPrediction) (ct cp : ℚ)
    (pf : V → List ℚ) (pidx : Nat) (ptop : ℚ) (tif tgf : PyValue)
    (hcl : clean_text_input input = Except.ok tc)
    (hne : tc ≠ [])
    (hbin : binaryScore F bm (vz.transform tc) = Except.ok (pred, some ct, cp))
    (hlt : ct < 60)
    (hpp : gm.predict_proba = some pf)
    (hidx : pyIndexOf gm.classes_ (gm.predict (vz.transform tc)) = Except.ok pidx)
    (hnth : pyNth (pf (vz.transform tc)) pidx = Except.ok ptop)
    (hattr : attribution vz gm tc
      (FallbackPrediction.label (gm.predict (vz.transform tc))) =
      Except.ok (tif, tgf)) :
    layered_predict F vz bm gm input =
      Except.ok (PyValue.obj
        [ (lc "binary_prediction", PyValue.str
            (if 50 ≤ ct then lc "Unknown / Borderline" else lc "Fake")),
          (lc "binary_confidence", PyValue.num (round2 cp)),
          (lc "C_True_confidence", PyValue.num (round2 ct)),
          (lc "granular_prediction", PyValue.str
            (stripQuotes (gm.predict (vz.transform tc)))),
          (lc "granular_confidence_top", PyValue.num (round2 (ptop * 100))),
          (lc "granular_confidence_all", objOfConf (mkAllClassConfidences gm.classes_
            (pf (vz.transform tc)))),
          (lc "top_features_input", tif),
          (lc "top_features_overall", tgf) ]) ∧
    tif ≠ PyValue.str (lc "N/A") ∧ tgf ≠ PyValue.str (lc "N/A") := by
  refine ⟨?_, attribution_not_na vz gm _ _ tif tgf hattr⟩
  simp only [layered_predict, hcl, if_neg hne, hbin]
  rw [if_neg (not_le.mpr hlt)]
  simp only [escalatedResult, granularScore, hpp, hidx, hnth, hattr, pyStripLabel]

/-- C5 witness: `C_True = 55` escalates with the `Unknown / Borderline`
label and populated granular fields. -/
theorem C5_escalation_label_policy_witness :
    layered_predict expOne unitVec (binProba (11/20)) granProbaNoCoef
      (PyInput.str (lc "hello")) =
      Except.ok (PyValue.obj
        [ (lc "binary_prediction", PyValue.str
            (if 50 ≤ (55 : ℚ) then lc "Unknown / Borderline" else lc "Fake")),
          (lc "binary_confidence", PyValue.num (round2 55)),
          (lc "C_True_confidence", PyValue.num (round2 55)),
          (lc "granular_prediction", PyValue.str
            (stripQuotes (granProbaNoCoef.predict (unitVec.transform (lc "hello"))))),
          (lc "granular_confidence_top", PyValue.num (round2 ((3/4) * 100))),
          (lc "granular_confidence_all", objOfConf (mkAllClassConfidences
            granProbaNoCoef.classes_ [3/4, 1/4])),
          (lc "top_features_input", PyValue.str (lc "Feature support not available.")),
          (lc "top_features_overall", PyValue.str (lc "Feature support not available.")) ]) ∧
    PyValue.str (lc "Feature support not available.") ≠ PyValue.str (lc "N/A") ∧
    PyValue.str (lc "Feature support not available.") ≠ PyValue.str (lc "N/A") :=
  C5_escalation_label_policy expOne unitVec (binProba (11/20)) granProbaNoCoef
    (PyInput.str (lc "hello")) (lc "hello") (FallbackPrediction.int 1) 55 55
    (fun _ => [3/4, 1/4]) 0 (3/4)
    (PyValue.str (lc "Feature support not available."))
    (PyValue.str (lc "Feature support not available."))
    rfl (by decide) (by norm_num [binaryScore, binProba, pyNth]) (by norm_num)
    rfl rfl rfl rfl

/-- Rounding at two decimals moves a rational by at most `1/200`. -/
theorem round2_err (y : ℚ) : |round2 y - y| ≤ 1 / 200 := by
  have h := abs_sub_round (y * 100)
  rw [abs_sub_comm] at h
  have h2 : round2 y - y = (((round (y * 100) : ℤ) : ℚ) - y * 100) / 100 := by
    rw [round2]; ring
  rw [h2, abs_div, show |(100 : ℚ)| = 100 by norm_num,
    show (1 : ℚ) / 200 = (1 / 2) / 100 by norm_num]
  gcongr

/-- `round` is monotone on rationals. -/
theorem round_monoQ {x y : ℚ} (h : x ≤ y) : round x ≤ round y := by
  rw [round_eq, round_eq]
  exact Int.floor_le_floor (by linarith)

/-- A probability scaled to a percentage and rounded stays within `[0, 100]`. -/
theorem round2_scale_bounds {p : ℚ} (h0 : 0 ≤ p) (h1 : p ≤ 1) :
    0 ≤ round2 (p * 100) ∧ round2 (p * 100) ≤ 100 := by
  have hlo : round (0 : ℚ) ≤ round (p * 100 * 100) := round_monoQ (by nlinarith)
  have hhi : round (p * 100 * 100) ≤ round (10000 : ℚ) := round_monoQ (by nlinarith)
  rw [round_zero] at hlo
  have h4 : round (10000 : ℚ) = 10000 := by norm_num [round_eq]
  rw [h4] at hhi
  constructor
  · rw [round2]
    apply div_nonneg _ (by norm_num : (0 : ℚ) ≤ 100)
    exact_mod_cast hlo
  · rw [round2, div_le_iff₀ (by norm_num : (0 : ℚ) < 100)]
    calc ((round (p * 100 * 100) : ℤ) : ℚ) ≤ ((10000 : ℤ) : ℚ) := by exact_mod_cast hhi
    _ = 100 * 100 := by norm_num

/-- Every value of a dict after an insertion is an old value or the
inserted one. -/
theorem mem_dictInsert_val (d : List (List Char × ℚ)) (k : List Char) (v : ℚ)
    (kv : List Char × ℚ) (h : kv ∈ dictInsert d k v) : kv ∈ d ∨ kv.2 = v := by
  induction d with
  | nil =>
      simp only [dictInsert, List.mem_singleton] at h
      right; rw [h]
  | cons hd t ih =>
      obtain ⟨k', v'⟩ := hd
      by_cases hk : k' = k
      · simp only [dictInsert, if_pos hk, List.mem_cons] at h
        rcases h with h | h
        · right; rw [h]
        · left; exact List.mem_cons_of_mem _ h
      · simp only [dictInsert, if_neg hk, List.mem_cons] at h
        rcases h with h | h
        · left; exact h ▸ List.mem_cons_self _ _
        · rcases ih h with h' | h'
          · left; exact List.mem_cons_of_mem _ h'
          · right; exact h'

/-- Inserting a fresh key appends it. -/
theorem dictInsert_fresh (d : List (List Char × ℚ)) (k : List Char) (v : ℚ)
    (h : k ∉ d.map Prod.fst) : dictInsert d k v = d ++ [(k, v)] := by
  induction d with
  | nil => rfl
  | cons hd t ih =>
      obtain ⟨k', v'⟩ := hd
      simp only [List.map_cons, List.mem_cons] at h
      push_neg at h
      obtain ⟨h1, h2⟩ := h
      simp only [dictInsert]
      rw [if_neg (fun he => h1 he.symm), ih h2]
      rfl

/-- With pairwise fresh keys the dict comprehension is just the pair list. -/
theorem dictFoldl_nodup (pairs : List (List Char × ℚ)) :
    ∀ acc : List (List Char × ℚ), (((acc ++ pairs).map Prod.fst).Nodup) →
      pairs.foldl (fun d kv => dictInsert d kv.1 kv.2) acc = acc ++ pairs := by
  induction pairs with
  | nil => intro acc h; simp
  | cons hd t ih =>
      intro acc h
      have hfresh : hd.1 ∉ acc.map Prod.fst := by
        rw [List.map_append] at h
        rcases (List.nodup_append.mp h) with ⟨-, -, hdisj⟩
        intro hmem
        exact hdisj hmem (by simp)
      simp only [List.foldl_cons]
      rw [dictInsert_fresh acc hd.1 hd.2 hfresh]
      have hre : ((acc ++ [(hd.1, hd.2)]) ++ t) = acc ++ hd :: t := by simp
      have := ih (acc ++ [(hd.1, hd.2)]) (by rw [hre]; exact h)
      rw [this, List.append_assoc]
      simp

/-- Every value of the folded dict comes from the inserted pairs. -/
theorem dictFoldl_mem_val (pairs : List (List Char × ℚ)) :
    ∀ (acc : List (List Char × ℚ)) (kv : List Char × ℚ),
      kv ∈ pairs.foldl (fun d kv => dictInsert d kv.1 kv.2) acc →
      kv ∈ acc ∨ ∃ pr ∈ pairs, kv.2 = pr.2 := by
  induction pairs with
  | nil => intro acc kv h; exact Or.inl h
  | cons hd t ih =>
      intro acc kv h
      simp only [List.foldl_cons] at h
      rcases ih (dictInsert acc hd.1 hd.2) kv h with h' | h'
      · rcases mem_dictInsert_val acc hd.1 hd.2 kv h' with h'' | h''
        · exact Or.inl h''
        · exact Or.inr ⟨hd, List.mem_cons_self _ _, h''⟩
      · obtain ⟨pr, hpr, hv⟩ := h'
        exact Or.inr ⟨pr, List.mem_cons_of_mem _ hpr, hv⟩

/-- Summing two-decimal rounded percentages loses at most `1/200` per
entry against the exact scaled sum. -/
theorem sum_round2_err (ps : List ℚ) :
    |(ps.map (fun p => round2 (p * 100))).sum - 100 * ps.sum| ≤
      (ps.length : ℚ) * (1 / 200) := by
  induction ps with
  | nil => simp
  | cons p t ih =>
      simp only [List.map_cons, List.sum_cons, List.length_cons]
      have herr := round2_err (p * 100)
      have key : round2 (p * 100) + (t.map (fun p => round2 (p * 100))).sum -
          100 * (p + t.sum) =
          (round2 (p * 100) - p * 100) +
            ((t.map (fun p => round2 (p * 100))).sum - 100 * t.sum) := by ring
      rw [key]
      calc |(round2 (p * 100) - p * 100) +
            ((t.map (fun p => round2 (p * 100))).sum - 100 * t.sum)|
          ≤ |round2 (p * 100) - p * 100| +
            |(t.map (fun p => round2 (p * 100))).sum - 100 * t.sum| := abs_add _ _
        _ ≤ 1 / 200 + (t.length : ℚ) * (1 / 200) := by
              gcongr
        _ = ((t.length : ℚ) + 1) * (1 / 200) := by ring
        _ = (((t.length + 1 : ℕ)) : ℚ) * (1 / 200) := by push_cast; ring

/-- C4 (amended): every value of a produced per-class mapping lies in
`[0, 100]`; when the quote-stripped labels are pairwise distinct (no dict
key collapses) the values sum to 100 within `1/200` per class — hence
within 0.1 of 100 for up to 20 classes.  Key collapsing loses probability
mass, see the counterexample. -/
theorem C4_mapping_values_and_sum (classes : List (List Char)) (probs : List ℚ)
    (hlen : classes.length = probs.length)
    (hpos : ∀ p ∈ probs, 0 ≤ p) (hsum : probs.sum = 1) :
    (∀ kv ∈ mkAllClassConfidences classes probs, 0 ≤ kv.2 ∧ kv.2 ≤ 100) ∧
    ((classes.map stripQuotes).Nodup →
      |((mkAllClassConfidences classes probs).map Prod.snd).sum - 100| ≤
        (classes.length : ℚ) * (1 / 200)) := by
  have hfold : mkAllClassConfidences classes probs =
      ((classes.zip probs).map
        (fun cp => (stripQuotes cp.1, round2 (cp.2 * 100)))).foldl
        (fun d kv => dictInsert d kv.1 kv.2) [] := by
    rw [mkAllClassConfidences, List.foldl_map]
  constructor
  · intro kv hkv
    rw [hfold] at hkv
    rcases dictFoldl_mem_val _ [] kv hkv with h | ⟨pr, hpr, hval⟩
    · exact absurd h (List.not_mem_nil kv)
    · obtain ⟨cp, hcp, hprq⟩ := List.mem_map.mp hpr
      have hp2 : cp.2 ∈ probs := (List.of_mem_zip hcp).2
      have h1 : cp.2 ≤ 1 := hsum ▸ List.single_le_sum hpos cp.2 hp2
      have hb := round2_scale_bounds (hpos cp.2 hp2) h1
      rw [hval, ← hprq]
      exact hb
  · intro hnodup
    have hkeys : ((classes.zip probs).map
        (fun cp => (stripQuotes cp.1, round2 (cp.2 * 100)))).map Prod.fst =
        classes.map stripQuotes := by
      rw [List.map_map]
      have h1 : (classes.zip probs).map
          (Prod.fst ∘ fun cp => (stripQuotes cp.1, round2 (cp.2 * 100))) =
          (classes.zip probs).map (stripQuotes ∘ Prod.fst) := rfl
      rw [h1, ← List.map_map, List.map_fst_zip classes probs hlen.le]
    have heq : mkAllClassConfidences classes probs =
        (classes.zip probs).map (fun cp => (stripQuotes cp.1, round2 (cp.2 * 100))) := by
      rw [hfold]
      exact dictFoldl_nodup _ [] (by simpa [hkeys] using hnodup)
    have hvals : (mkAllClassConfidences classes probs).map Prod.snd =
        probs.map (fun p => round2 (p * 100)) := by
      rw [heq, List.map_map]
      have h1 : (classes.zip probs).map
          (Prod.snd ∘ fun cp => (stripQuotes cp.1, round2 (cp.2 * 100))) =
          (classes.zip probs).map ((fun p => round2 (p * 100)) ∘ Prod.snd) := rfl
      rw [h1, ← List.map_map, List.map_snd_zip classes probs hlen.ge]
    rw [hvals, hlen]
    have := sum_round2_err probs
    rw [hsum, mul_one] at this
    exact this

/-- C4 witness for the amended statement: two distinct labels with
probabilities one half each give values 50 and 50 in `[0, 100]` summing
exactly to 100. -/
theorem C4_mapping_values_and_sum_witness :
    (∀ kv ∈ mkAllClassConfidences [lc "x", lc "y"] [1/2, 1/2], 0 ≤ kv.2 ∧ kv.2 ≤ 100) ∧
    (([lc "x", lc "y"].map stripQuotes).Nodup →
      |((mkAllClassConfidences [lc "x", lc "y"] [1/2, 1/2]).map Prod.snd).sum - 100| ≤
        (([lc "x", lc "y"].length : ℕ) : ℚ) * (1 / 200)) :=
  C4_mapping_values_and_sum [lc "x", lc "y"] [1/2, 1/2] rfl
    (by norm_num) (by norm_num)

/-- C4 counterexample: with class labels `"a"` (quoted) and `a` the
stripped keys collide, the dict keeps a single entry and the produced
mapping in the response sums to 50, far outside `100 ± 0.1`. -/
theorem C4_collapse_counterexample :
    (∀ p ∈ [(1/2 : ℚ), 1/2], 0 ≤ p) ∧ ([(1/2 : ℚ), 1/2].sum = 1) ∧
    mkAllClassConfidences [lc "\"a\"", lc "a"] [1/2, 1/2] = [(lc "a", 50)] ∧
    ¬ (|((mkAllClassConfidences [lc "\"a\"", lc "a"] [1/2, 1/2]).map Prod.snd).sum - 100|
        ≤ 1/10) ∧
    layered_predict expOne unitVec (binProba (2/5)) granCollapse
      (PyInput.str (lc "hello")) =
      Except.ok (PyValue.obj
        [ (lc "binary_prediction", PyValue.str (lc "Fake")),
          (lc "binary_confidence", PyValue.num 60),
          (lc "C_True_confidence", PyValue.num 40),
          (lc "granular_prediction", PyValue.str (lc "a")),
          (lc "granular_confidence_top", PyValue.num 50),
          (lc "granular_confidence_all", PyValue.obj [(lc "a", PyValue.num 50)]),
          (lc "top_features_input", PyValue.str (lc "Feature support not available.")),
          (lc "top_features_overall",
            PyValue.str (lc "Feature support not available.")) ]) := by
  have hs1 : stripQuotes (lc "\"a\"") = lc "a" := by decide
  have hs2 : stripQuotes (lc "a") = lc "a" := by decide
  have hr : round2 ((1/2 : ℚ) * 100) = 50 := by norm_num [round2, round_eq]
  have hmk : mkAllClassConfidences [lc "\"a\"", lc "a"] [1/2, 1/2] = [(lc "a", 50)] := by
    simp only [mkAllClassConfidences, List.zip_cons_cons, List.zip_nil_right,
      List.foldl_cons, List.foldl_nil, dictInsert, hs1, hs2, hr]
    simp [dictInsert]
  refine ⟨by norm_num, by norm_num, hmk, by rw [hmk]; norm_num, ?_⟩
  have hcl : clean_text_input (PyInput.str (lc "hello")) = Except.ok (lc "hello") := rfl
  have hne : (lc "hello" = ([] : List Char)) = False := eq_false (by decide)
  have hbs : binaryScore expOne (binProba (2/5)) (unitVec.transform (lc "hello")) =
      Except.ok (FallbackPrediction.int 0, some 40, 60) := by
    norm_num [binaryScore, binProba, pyNth]
  have h60 : (60 ≤ (40 : ℚ)) = False := eq_false (by norm_num)
  have h50 : (50 ≤ (40 : ℚ)) = False := eq_false (by norm_num)
  have hgs : granularScore expOne granCollapse (unitVec.transform (lc "hello")) =
      Except.ok (FallbackPrediction.label (lc "\"a\""), (1/2) * 100,
        objOfConf [(lc "a", 50)]) := by
    have hpp : granCollapse.predict_proba = some (fun _ => [1/2, 1/2]) := rfl
    have hidx : pyIndexOf granCollapse.classes_ (granCollapse.predict
        (unitVec.transform (lc "hello"))) = Except.ok 0 := rfl
    have hcls : granCollapse.classes_ = [lc "\"a\"", lc "a"] := rfl
    have hpred : granCollapse.predict (unitVec.transform (lc "hello")) = lc "\"a\"" := rfl
    have hidx2 : pyIndexOf [lc "\"a\"", lc "a"] (lc "\"a\"") = Except.ok 0 := rfl
    simp only [granularScore, hpp, hidx, pyNth, hcls, hpred, hidx2, hmk,
      List.getElem?_cons_zero]
  have hcoef : granCollapse.coef_ = none := rfl
  have hr40 : round2 (40 : ℚ) = 40 := by norm_num [round2, round_eq]
  have hr60 : round2 (60 : ℚ) = 60 := by norm_num [round2, round_eq]
  have hr50 : round2 ((1/2 : ℚ) * 100) = 50 := hr
  simp only [layered_predict, hcl, hne, if_false, hbs, h60, h50, escalatedResult, hgs,
    attribution, hcoef, pyStripLabel, hs1, hr40, hr60, hr50, objOfConf, List.map_cons,
    List.map_nil]

/-- In-bounds Python indexing returns the `getD` value. -/
theorem pyNth_ok {α : Type} (l : List α) (n : Nat) (d : α) (h : n < l.length) :
    pyNth l n = Except.ok (l.getD n d) := by
  rw [pyNth, List.getD_eq_getElem?_getD, List.getElem?_eq_getElem h]
  rfl

/-- Insertion into the argsort accumulator only adds the given index. -/
theorem mem_insertByCoef (coefs : List ℚ) (i x : Nat) (l : List Nat)
    (h : x ∈ insertByCoef coefs i l) : x = i ∨ x ∈ l := by
  induction l with
  | nil => simp only [insertByCoef, List.mem_singleton] at h; exact Or.inl h
  | cons j t ih =>
      simp only [insertByCoef] at h
      by_cases hc : coefs.getD i 0 < coefs.getD j 0
      · rw [if_pos hc] at h
        rcases List.mem_cons.mp h with h | h
        · exact Or.inl h
        · exact Or.inr h
      · rw [if_neg hc] at h
        rcases List.mem_cons.mp h with h | h
        · exact Or.inr (h ▸ List.mem_cons_self _ _)
        · rcases ih h with h' | h'
          · exact Or.inl h'
          · exact Or.inr (List.mem_cons_of_mem _ h')

/-- Indices produced by `np.argsort` are positions of the coefficient row. -/
theorem argsortAsc_mem (coefs : List ℚ) (x : Nat) (h : x ∈ argsortAsc coefs) :
    x < coefs.length := by
  have key : ∀ (l : List Nat) (acc : List Nat),
      x ∈ l.foldl (fun a i => insertByCoef coefs i a) acc → x ∈ acc ∨ x ∈ l := by
    intro l
    induction l with
    | nil => intro acc h'; exact Or.inl h'
    | cons hd t ih =>
        intro acc h'
        rcases ih (insertByCoef coefs hd acc) h' with h'' | h''
        · rcases mem_insertByCoef coefs hd x acc h'' with h3 | h3
          · exact Or.inr (h3 ▸ List.mem_cons_self _ _)
          · exact Or.inl h3
        · exact Or.inr (List.mem_cons_of_mem _ h'')
  rcases key (List.range coefs.length) [] h with h' | h'
  · exact absurd h' (List.not_mem_nil x)
  · exact List.mem_range.mp h'

/-- Indices of the top-200 ranked window are in bounds. -/
theorem topIdxWindow_mem (coefs : List ℚ) (x : Nat) (h : x ∈ topIdxWindow coefs) :
    x < coefs.length := by
  rw [topIdxWindow, List.mem_reverse] at h
  exact argsortAsc_mem coefs x (List.mem_of_mem_drop h)

/-- The global comprehension evaluates to its map form when the indices
are in bounds. -/
theorem collectFeats_eq (names : List (List Char)) (coefs : List ℚ) (idxs : List Nat)
    (hb : ∀ i ∈ idxs, i < names.length ∧ i < coefs.length) :
    collectFeats names coefs idxs =
      Except.ok (idxs.map (fun i => (names.getD i [], round4 (coefs.getD i 0)))) := by
  induction idxs with
  | nil => rfl
  | cons i t ih =>
      obtain ⟨hn, hc⟩ := hb i (List.mem_cons_self _ _)
      simp only [collectFeats, pyNth_ok names i [] hn, pyNth_ok coefs i 0 hc,
        ih (fun j hj => hb j (List.mem_cons_of_mem _ hj)), List.map_cons]

/-- The input-filtered comprehension evaluates to its filter-map form when
the indices are in bounds. -/
theorem collectInputFeats_eq (names : List (List Char)) (coefs : List ℚ)
    (words : List (List Char)) (idxs : List Nat)
    (hb : ∀ i ∈ idxs, i < names.length ∧ i < coefs.length) :
    collectInputFeats names coefs words idxs =
      Except.ok ((idxs.filter (fun i => names.getD i [] ∈ words)).map
        (fun i => (names.getD i [], round4 (coefs.getD i 0)))) := by
  induction idxs with
  | nil => rfl
  | cons i t ih =>
      obtain ⟨hn, hc⟩ := hb i (List.mem_cons_self _ _)
      have iht := ih (fun j hj => hb j (List.mem_cons_of_mem _ hj))
      by_cases hw : names.getD i [] ∈ words
      · simp only [collectInputFeats, pyNth_ok names i [] hn, pyNth_ok coefs i 0 hc,
          if_pos hw, iht, List.filter_cons, hw]
        simp
      · simp only [collectInputFeats, pyNth_ok names i [] hn, pyNth_ok coefs i 0 hc,
          if_neg hw, iht, List.filter_cons, hw]
        simp

/-- C6: with linear coefficients exposed, `top_features_input` and
`top_features_overall` are derived from the descending top-200 window of
`np.argsort`: the overall list is the first 10 window entries, the input
list is the first 10 window entries whose term occurs in the space-split
input (in ranked order), and both are capped at 10, the input list being
a subset (by term) of the window. -/
theorem C6_attribution_window {V : Type} (vz : Vectorizer V) (gm : SkModel V)
    (text_clean : List Char) (gl : List Char) (rows : List (List ℚ)) (ci : Nat)
    (coefs : List ℚ)
    (hco : gm.coef_ = some rows)
    (hidx : pyIndexOfPred gm.classes_ (FallbackPrediction.label gl) = Except.ok ci)
    (hrow : pyNth rows ci = Except.ok coefs)
    (hlen : coefs.length ≤ vz.get_feature_names_out.length) :
    attribution vz gm text_clean (FallbackPrediction.label gl) =
      Except.ok
        (featVal ((((topIdxWindow coefs).filter
            (fun i => vz.get_feature_names_out.getD i [] ∈ splitWs text_clean)).map
            (fun i => (vz.get_feature_names_out.getD i [],
              round4 (coefs.getD i 0)))).take 10),
         featVal (((topIdxWindow coefs).take 10).map
            (fun i => (vz.get_feature_names_out.getD i [],
              round4 (coefs.getD i 0))))) ∧
    ((((topIdxWindow coefs).filter
        (fun i => vz.get_feature_names_out.getD i [] ∈ splitWs text_clean)).map
        (fun i => (vz.get_feature_names_out.getD i [],
          round4 (coefs.getD i 0)))).take 10).length ≤ 10 ∧
    (((topIdxWindow coefs).take 10).map
        (fun i => (vz.get_feature_names_out.getD i [],
          round4 (coefs.getD i 0)))).length ≤ 10 ∧
    ∀ pr ∈ ((((topIdxWindow coefs).filter
        (fun i => vz.get_feature_names_out.getD i [] ∈ splitWs text_clean)).map
        (fun i => (vz.get_feature_names_out.getD i [],
          round4 (coefs.getD i 0)))).take 10),
      pr.1 ∈ (topIdxWindow coefs).map (fun i => vz.get_feature_names_out.getD i []) := by
  have hbounds : ∀ i ∈ topIdxWindow coefs,
      i < vz.get_feature_names_out.length ∧ i < coefs.length := by
    intro i hi
    have := topIdxWindow_mem coefs i hi
    exact ⟨lt_of_lt_of_le this hlen, this⟩
  have hbounds10 : ∀ i ∈ (topIdxWindow coefs).take 10,
      i < vz.get_feature_names_out.length ∧ i < coefs.length :=
    fun i hi => hbounds i (List.mem_of_mem_take hi)
  refine ⟨?_, ?_, ?_, ?_⟩
  · simp only [attribution, hco, hidx, hrow,
      collectInputFeats_eq vz.get_feature_names_out coefs (splitWs text_clean)
        (topIdxWindow coefs) hbounds,
      collectFeats_eq vz.get_feature_names_out coefs ((topIdxWindow coefs).take 10)
        hbounds10]
  · exact List.length_take_le 10 _
  · rw [List.length_map]; exact List.length_take_le 10 _
  · intro pr hpr
    obtain ⟨i, hi, hpri⟩ := List.mem_map.mp (List.mem_of_mem_take hpr)
    rw [← hpri]
    exact List.mem_map.mpr ⟨i, List.mem_of_mem_filter hi, rfl⟩

/-- C6 witness: the three-class fixture with six features and input
`hello world`. -/
theorem C6_attribution_window_witness :
    attribution unitVec granFix (lc "hello world")
        (FallbackPrediction.label (lc "\"Satire\"")) =
      Except.ok
        (featVal ((((topIdxWindow granRow1).filter
            (fun i => unitVec.get_feature_names_out.getD i [] ∈
              splitWs (lc "hello world"))).map
            (fun i => (unitVec.get_feature_names_out.getD i [],
              round4 (granRow1.getD i 0)))).take 10),
         featVal (((topIdxWindow granRow1).take 10).map
            (fun i => (unitVec.get_feature_names_out.getD i [],
              round4 (granRow1.getD i 0))))) ∧
    ((((topIdxWindow granRow1).filter
        (fun i => unitVec.get_feature_names_out.getD i [] ∈
          splitWs (lc "hello world"))).map
        (fun i => (unitVec.get_feature_names_out.getD i [],
          round4 (granRow1.getD i 0)))).take 10).length ≤ 10 ∧
    (((topIdxWindow granRow1).take 10).map
        (fun i => (unitVec.get_feature_names_out.getD i [],
          round4 (granRow1.getD i 0)))).length ≤ 10 ∧
    ∀ pr ∈ ((((topIdxWindow granRow1).filter
        (fun i => unitVec.get_feature_names_out.getD i [] ∈
          splitWs (lc "hello world"))).map
        (fun i => (unitVec.get_feature_names_out.getD i [],
          round4 (granRow1.getD i 0)))).take 10),
      pr.1 ∈ (topIdxWindow granRow1).map
        (fun i => unitVec.get_feature_names_out.getD i []) :=
  C6_attribution_window unitVec granFix (lc "hello world") (lc "\"Satire\"")
    [[1/2, -1, 3/2, 0, 2, 1/4], granRow1, [0, 0, 0, 0, 0, 0]] 1 granRow1
    rfl rfl rfl (by decide)

/-- `str.lower()` leaves no ASCII uppercase letter. -/
theorem toLowerA_not_upper (c : Char) : (toLowerA c).isUpper = false := by
  rw [toLowerA]
  by_cases h : c.isUpper
  · rw [if_pos h]
    simp only [Char.isUpper, Bool.and_eq_true, decide_eq_true_eq] at h
    obtain ⟨h1, h2⟩ := h
    have h1n : 65 ≤ c.toNat := h1
    have h2n : c.toNat ≤ 90 := h2
    have h97 : 97 ≤ c.toNat + 32 := by omega
    have h122 : c.toNat + 32 ≤ 122 := by omega
    generalize hm : c.toNat + 32 = m at h97 h122
    interval_cases m <;> decide
  · rw [if_neg h]
    simpa using h

/-- The head of a list is a member. -/
theorem head?_mem_self {α : Type} {l : List α} {a : α} (h : l.head? = some a) : a ∈ l := by
  cases l with
  | nil => exact absurd h (by simp)
  | cons x t =>
      simp only [List.head?_cons, Option.some.injEq] at h
      exact h ▸ List.mem_cons_self _ _

/-- A matcher layer only returns suffixes of its input, provided the star
continuation does. -/
theorem allMatchesF_suffix
    (rec : Regex → Option Char → List Char → List (Option Char × List Char))
    (hrec : ∀ r prev s x, x ∈ rec r prev s → x.2 <:+ s) :
    ∀ r prev s x, x ∈ allMatchesF rec r prev s → x.2 <:+ s := by
  intro r
  induction r with
  | eps =>
      intro prev s x h
      simp only [allMatchesF, List.mem_singleton] at h
      exact h ▸ List.suffix_refl s
  | cls p =>
      intro prev s x h
      cases s with
      | nil => exact absurd h (by simp [allMatchesF])
      | cons c t =>
          simp only [allMatchesF] at h
          by_cases hp : p c
          · rw [if_pos hp] at h
            simp only [List.mem_singleton] at h
            exact h ▸ List.suffix_cons c t
          · rw [if_neg hp] at h
            exact absurd h (List.not_mem_nil x)
  | cat a b iha ihb =>
      intro prev s x h
      simp only [allMatchesF, List.mem_flatMap] at h
      obtain ⟨y, hy, hx⟩ := h
      exact (ihb y.1 y.2 x hx).trans (iha prev s y hy)
  | alt a b iha ihb =>
      intro prev s x h
      simp only [allMatchesF, List.mem_append] at h
      rcases h with h | h
      · exact iha prev s x h
      · exact ihb prev s x h
  | star r ihr =>
      intro prev s x h
      simp only [allMatchesF, List.mem_append, List.mem_flatMap,
        List.mem_singleton] at h
      rcases h with ⟨y, hy, hx⟩ | h
      · exact (hrec (Regex.star r) y.1 y.2 x hx).trans (ihr prev s y hy)
      · exact h ▸ List.suffix_refl s
  | wordB =>
      intro prev s x h
      simp only [allMatchesF] at h
      by_cases hb : wordBoundary prev s
      · rw [if_pos hb] at h
        simp only [List.mem_singleton] at h
        exact h ▸ List.suffix_refl s
      · rw [if_neg hb] at h
        exact absurd h (List.not_mem_nil x)

/-- Matches only consume from the front: the remainder is a suffix. -/
theorem allMatches_suffix (fuel : Nat) :
    ∀ r prev s x, x ∈ allMatches fuel r prev s → x.2 <:+ s := by
  induction fuel with
  | zero =>
      intro r prev s x h
      simp only [allMatches, List.mem_singleton] at h
      exact h ▸ List.suffix_refl s
  | succ f ih =>
      intro r prev s x h
      exact allMatchesF_suffix (allMatches f) ih r prev s x h

/-- The chosen match leaves a suffix of the input. -/
theorem headMatch_suffix (r : Regex) (prev : Option Char) (s : List Char)
    (x : Option Char × List Char) (h : headMatch r prev s = some x) : x.2 <:+ s :=
  allMatches_suffix (s.length + 1) r prev s x (head?_mem_self h)

/-- Characters of a substitution result come from the replacement or the
input. -/
theorem reSubGo_chars (r : Regex) (rep : List Char) :
    ∀ (fuel : Nat) (prev : Option Char) (s : List Char) (c : Char),
      c ∈ reSubGo r rep fuel prev s → c ∈ rep ∨ c ∈ s := by
  intro fuel
  induction fuel with
  | zero => intro prev s c h; exact absurd h (List.not_mem_nil c)
  | succ f ih =>
      intro prev s c h
      simp only [reSubGo] at h
      cases hm : headMatch r prev s with
      | some x =>
          simp only [hm] at h
          by_cases hlt : x.2.length < s.length
          · rw [if_pos hlt] at h
            rcases List.mem_append.mp h with h' | h'
            · exact Or.inl h'
            · rcases ih x.1 x.2 c h' with h'' | h''
              · exact Or.inl h''
              · exact Or.inr ((headMatch_suffix r prev s x hm).subset h'')
          · rw [if_neg hlt] at h
            cases s with
            | nil => exact Or.inl h
            | cons c0 t =>
                rcases List.mem_append.mp h with h' | h'
                · exact Or.inl h'
                · rcases List.mem_cons.mp h' with h'' | h''
                  · exact Or.inr (h'' ▸ List.mem_cons_self _ _)
                  · rcases ih (some c0) t c h'' with h3 | h3
                    · exact Or.inl h3
                    · exact Or.inr (List.mem_cons_of_mem _ h3)
      | none =>
          simp only [hm] at h
          cases s with
          | nil => exact absurd h (List.not_mem_nil c)
          | cons c0 t =>
              rcases List.mem_cons.mp h with h'' | h''
              · exact Or.inr (h'' ▸ List.mem_cons_self _ _)
              · rcases ih (some c0) t c h'' with h3 | h3
                · exact Or.inl h3
                · exact Or.inr (List.mem_cons_of_mem _ h3)

/-- The chosen match of a single character class. -/
theorem headMatch_cls (q : Char → Bool) (prev : Option Char) (c : Char) (t : List Char) :
    headMatch (Regex.cls q) prev (c :: t) =
      (if q c then some (some c, t) else none) := by
  by_cases hq : q c
  · simp [headMatch, allMatches, allMatchesF, hq]
  · simp [headMatch, allMatches, allMatchesF, hq]

/-- Substituting a single character class is a pointwise map. -/
theorem reSubGo_cls (q : Char → Bool) (d : Char) :
    ∀ (fuel : Nat) (prev : Option Char) (s : List Char), s.length < fuel →
      reSubGo (Regex.cls q) [d] fuel prev s =
        s.map (fun c => if q c then d else c) := by
  intro fuel
  induction fuel with
  | zero => intro prev s h; exact absurd h (Nat.not_lt_zero _)
  | succ f ih =>
      intro prev s hlen
      cases s with
      | nil => rfl
      | cons c t =>
          have ht : t.length < f := by
            simp only [List.length_cons] at hlen; omega
          by_cases hq : q c
          · have hm : headMatch (Regex.cls q) prev (c :: t) = some (some c, t) := by
              rw [headMatch_cls, if_pos hq]
            simp only [reSubGo, hm]
            rw [if_pos (show t.length < (c :: t).length by simp)]
            rw [ih (some c) t ht]
            simp [hq]
          · have hm : headMatch (Regex.cls q) prev (c :: t) = none := by
              rw [headMatch_cls, if_neg hq]
            simp only [reSubGo, hm]
            rw [ih (some c) t ht]
            simp [hq]

/-- The head surviving `dropWhile` fails the predicate. -/
theorem dropWhile_head_false (p : Char → Bool) :
    ∀ (l : List Char) (c : Char) (t : List Char), l.dropWhile p = c :: t → p c = false := by
  intro l
  induction l with
  | nil => intro c t h; exact absurd h (by simp)
  | cons a l' ih =>
      intro c t h
      by_cases hp : p a
      · rw [List.dropWhile_cons_of_pos hp] at h
        exact ih c t h
      · rw [List.dropWhile_cons_of_neg hp] at h
        injection h with h1 h2
        rw [← h1]
        simpa using hp

/-- The greedy star over a character class first consumes the longest run. -/
theorem star_cls_head (q : Char → Bool) :
    ∀ (s : List Char) (fuel : Nat) (prev : Option Char), s.length < fuel →
      ∃ pc, (allMatches fuel (Regex.star (Regex.cls q)) prev s).head? =
        some (pc, s.dropWhile q) := by
  intro s
  induction s with
  | nil =>
      intro fuel prev hf
      match fuel, hf with
      | f + 1, _ => exact ⟨prev, rfl⟩
  | cons c t ih =>
      intro fuel prev hf
      match fuel, hf with
      | f + 1, hf =>
        by_cases hq : q c
        · have ht : t.length < f := by
            simp only [List.length_cons] at hf; omega
          obtain ⟨pc, hpc⟩ := ih f (some c) ht
          refine ⟨pc, ?_⟩
          rw [List.dropWhile_cons_of_pos hq]
          cases hA : allMatches f (Regex.star (Regex.cls q)) (some c) t with
          | nil => rw [hA] at hpc; exact absurd hpc (by simp)
          | cons a A =>
              rw [hA] at hpc
              simp only [List.head?_cons, Option.some.injEq] at hpc
              simp [allMatches, allMatchesF, hq, hA, hpc]
        · refine ⟨prev, ?_⟩
          rw [List.dropWhile_cons_of_neg (by simp [hq])]
          simp [allMatches, allMatchesF, hq]

/-- On a run-starting character, `q+` greedily matches the whole run. -/
theorem headMatch_plus_pos (q : Char → Bool) (prev : Option Char) (c : Char)
    (t : List Char) (hq : q c = true) :
    ∃ pc, headMatch (rplus (Regex.cls q)) prev (c :: t) = some (pc, t.dropWhile q) := by
  obtain ⟨pc, hpc⟩ := star_cls_head q t (t.length + 2) (some c) (by omega)
  refine ⟨pc, ?_⟩
  have key : headMatch (rplus (Regex.cls q)) prev (c :: t) =
      (allMatches (t.length + 2) (Regex.star (Regex.cls q)) (some c) t).head? := by
    simp [headMatch, rplus, allMatches, allMatchesF, hq, List.length_cons]
  rw [key, hpc]

/-- On a non-matching character, `q+` does not match. -/
theorem headMatch_plus_neg (q : Char → Bool) (prev : Option Char) (c : Char)
    (t : List Char) (hq : q c = false) :
    headMatch (rplus (Regex.cls q)) prev (c :: t) = none := by
  simp [headMatch, rplus, allMatches, allMatchesF, hq]

/-- `q+` does not match the empty input. -/
theorem headMatch_plus_nil (q : Char → Bool) (prev : Option Char) :
    headMatch (rplus (Regex.cls q)) prev [] = none := rfl

/-- Characters after substituting `q+` by `d`: the replacement, or an
original character failing `q`. -/
theorem reSubGo_plus_mem (q : Char → Bool) (d : Char) :
    ∀ (fuel : Nat) (prev : Option Char) (s : List Char) (c : Char),
      c ∈ reSubGo (rplus (Regex.cls q)) [d] fuel prev s →
      c = d ∨ (c ∈ s ∧ q c = false) := by
  intro fuel
  induction fuel with
  | zero => intro prev s c h; exact absurd h (List.not_mem_nil c)
  | succ f ih =>
      intro prev s c h
      cases s with
      | nil =>
          simp only [reSubGo, headMatch_plus_nil] at h
          exact absurd h (List.not_mem_nil c)
      | cons c0 t =>
          by_cases hq : q c0
          · obtain ⟨pc, hm⟩ := headMatch_plus_pos q prev c0 t hq
            simp only [reSubGo, hm] at h
            rw [if_pos (show (t.dropWhile q).length < (c0 :: t).length from
              lt_of_le_of_lt (List.Sublist.length_le (List.dropWhile_sublist q))
                (by simp))] at h
            rcases List.mem_cons.mp (by simpa using h) with h' | h'
            · exact Or.inl h'
            · rcases ih pc (t.dropWhile q) c h' with h'' | h''
              · exact Or.inl h''
              · exact Or.inr ⟨List.mem_cons_of_mem _
                  ((List.dropWhile_sublist q).subset h''.1), h''.2⟩
          · have hm := headMatch_plus_neg q prev c0 t (by simpa using hq)
            simp only [reSubGo, hm] at h
            rcases List.mem_cons.mp h with h' | h'
            · exact Or.inr ⟨h' ▸ List.mem_cons_self _ _, h' ▸ (by simpa using hq)⟩
            · rcases ih (some c0) t c h' with h'' | h''
              · exact Or.inl h''
              · exact Or.inr ⟨List.mem_cons_of_mem _ h''.1, h''.2⟩

/-- A substitution of `q+` on input led by a non-`q` character keeps that
character in front. -/
theorem reSubGo_plus_head (q : Char → Bool) (d : Char) (f : Nat) (prev : Option Char)
    (c : Char) (t : List Char) (hq : q c = false) :
    (reSubGo (rplus (Regex.cls q)) [d] (f + 1) prev (c :: t)).head? = some c := by
  have hm := headMatch_plus_neg q prev c t hq
  simp only [reSubGo, hm]
  rfl

/-- After substituting `q+` by a single `d` (with `q d` true), no two
adjacent result characters both equal `d`. -/
theorem reSubGo_plus_chain (q : Char → Bool) (d : Char) (hqd : q d = true) :
    ∀ (fuel : Nat) (prev : Option Char) (s : List Char), s.length < fuel →
      (reSubGo (rplus (Regex.cls q)) [d] fuel prev s).Chain'
        (fun a b => ¬(a = d ∧ b = d)) := by
  intro fuel
  induction fuel with
  | zero => intro prev s h; exact absurd h (Nat.not_lt_zero _)
  | succ f ih =>
      intro prev s hlen
      cases s with
      | nil =>
          simp only [reSubGo, headMatch_plus_nil]
          exact List.chain'_nil
      | cons c0 t =>
          have ht : t.length < f := by
            simp only [List.length_cons] at hlen; omega
          by_cases hq : q c0
          · obtain ⟨pc, hm⟩ := headMatch_plus_pos q prev c0 t hq
            simp only [reSubGo, hm]
            rw [if_pos (show (t.dropWhile q).length < (c0 :: t).length from
              lt_of_le_of_lt (List.Sublist.length_le (List.dropWhile_sublist q))
                (by simp))]
            have hdw : (t.dropWhile q).length < f :=
              lt_of_le_of_lt (List.Sublist.length_le (List.dropWhile_sublist q)) ht
            have hchain := ih pc (t.dropWhile q) hdw
            rw [show ([d] ++ reSubGo (rplus (Regex.cls q)) [d] f pc (t.dropWhile q)) =
              d :: reSubGo (rplus (Regex.cls q)) [d] f pc (t.dropWhile q) from rfl]
            rw [List.chain'_cons']
            refine ⟨?_, hchain⟩
            intro y hy
            cases hdwt : t.dropWhile q with
            | nil =>
                rw [hdwt] at hy
                cases f with
                | zero => exact absurd hdw (by rw [hdwt]; simp)
                | succ f' =>
                    simp only [reSubGo, headMatch_plus_nil] at hy
                    exact absurd hy (by simp)
            | cons c1 t1 =>
                have hc1 : q c1 = false := dropWhile_head_false q t c1 t1 hdwt
                cases f with
                | zero => exact absurd hdw (Nat.not_lt_zero _)
                | succ f' =>
                    rw [hdwt] at hy
                    rw [reSubGo_plus_head q d f' pc c1 t1 hc1] at hy
                    simp only [Option.mem_def, Option.some.injEq] at hy
                    intro hcon
                    rw [← hy] at hcon
                    rw [hcon.2] at hc1
                    rw [hqd] at hc1
                    exact absurd hc1 (by simp)
          · have hm := headMatch_plus_neg q prev c0 t (by simpa using hq)
            simp only [reSubGo, hm]
            rw [List.chain'_cons']
            refine ⟨?_, ih (some c0) t ht⟩
            intro y hy hcon
            rw [hcon.1] at hq
            rw [hqd] at hq
            exact absurd hq (by simp)

/-- Reversal preserves chains of a symmetric relation. -/
theorem chain'_reverse_of_symm {R : Char → Char → Prop} {l : List Char}
    (hsym : ∀ a b, R a b → R b a) (h : l.Chain' R) : l.reverse.Chain' R := by
  rw [List.chain'_reverse]
  exact List.Chain'.imp (fun a b hab => hsym a b hab) h

/-- `dropRightWhile` keeps an initial segment of the list. -/
theorem dropRightWhile_append (p : Char → Bool) (l : List Char) :
    ∃ t, dropRightWhile p l ++ t = l := by
  obtain ⟨pre, hpre⟩ := List.dropWhile_suffix (l := l.reverse) p
  refine ⟨pre.reverse, ?_⟩
  rw [dropRightWhile, ← List.reverse_append, hpre, List.reverse_reverse]

/-- Members of the stripped string are members of the string. -/
theorem pyStrip_subset (l : List Char) (c : Char) (h : c ∈ pyStrip l) : c ∈ l := by
  rw [pyStrip, dropRightWhile] at h
  rw [List.mem_reverse] at h
  have h1 := (List.dropWhile_sublist isSpacePy).subset h
  rw [List.mem_reverse] at h1
  exact (List.dropWhile_sublist isSpacePy).subset h1

/-- Stripping preserves the no-adjacent-spaces chain. -/
theorem pyStrip_chain (l : List Char)
    (h : l.Chain' (fun a b => ¬(a = ' ' ∧ b = ' '))) :
    (pyStrip l).Chain' (fun a b => ¬(a = ' ' ∧ b = ' ')) := by
  have hsym : ∀ a b : Char, ¬(a = ' ' ∧ b = ' ') → ¬(b = ' ' ∧ a = ' ') :=
    fun a b hab hcon => hab ⟨hcon.2, hcon.1⟩
  have h1 : (l.dropWhile isSpacePy).Chain' (fun a b => ¬(a = ' ' ∧ b = ' ')) :=
    List.Chain'.suffix h (List.dropWhile_suffix isSpacePy)
  have h2 := chain'_reverse_of_symm hsym h1
  have h3 : ((l.dropWhile isSpacePy).reverse.dropWhile isSpacePy).Chain'
      (fun a b => ¬(a = ' ' ∧ b = ' ')) :=
    List.Chain'.suffix h2 (List.dropWhile_suffix isSpacePy)
  exact chain'_reverse_of_symm hsym h3

/-- The stripped string does not start with a space. -/
theorem pyStrip_head (l : List Char) : (pyStrip l).head? ≠ some ' ' := by
  intro hx
  obtain ⟨t, ht⟩ := dropRightWhile_append isSpacePy (l.dropWhile isSpacePy)
  rw [pyStrip] at hx
  have hm : (l.dropWhile isSpacePy).head? = some ' ' := by
    rw [← ht, List.head?_append, hx]
    rfl
  cases hdw : l.dropWhile isSpacePy with
  | nil => rw [hdw] at hm; exact absurd hm (by simp)
  | cons c mt =>
      rw [hdw, List.head?_cons, Option.some.injEq] at hm
      have := dropWhile_head_false isSpacePy l c mt hdw
      rw [hm] at this
      exact absurd this (by simp [isSpacePy])

/-- The stripped string does not end with a space. -/
theorem pyStrip_last (l : List Char) : (pyStrip l).getLast? ≠ some ' ' := by
  intro hx
  rw [pyStrip, dropRightWhile, List.getLast?_reverse] at hx
  cases hdw : (l.dropWhile isSpacePy).reverse.dropWhile isSpacePy with
  | nil => rw [hdw] at hx; exact absurd hx (by simp)
  | cons c mt =>
      rw [hdw, List.head?_cons, Option.some.injEq] at hx
      have := dropWhile_head_false isSpacePy ((l.dropWhile isSpacePy).reverse) c mt hdw
      rw [hx] at this
      exact absurd this (by simp [isSpacePy])

/-- A non-uppercase ASCII letter lies between `a` and `z`. -/
theorem isLower_bounds (c : Char) (hal : c.isAlpha = true) (hup : c.isUpper = false) :
    'a' ≤ c ∧ c ≤ 'z' := by
  have hlow : c.isLower = true := by
    rw [Char.isAlpha, hup] at hal
    simpa using hal
  simp only [Char.isLower, Bool.and_eq_true, decide_eq_true_eq] at hlow
  obtain ⟨h1, h2⟩ := hlow
  exact ⟨h1, h2⟩

/-- C7 (corrected): whenever the normalizer returns a value it consists only
of lowercase ASCII letters separated by single spaces, with no leading or
trailing space, and null or scalar non-string inputs yield the empty string
without an error; but array-like inputs make `pd.isnull` return an array
whose truth test raises ValueError, so the spec's "no error is raised for
every input value" fails (see the companion counterexample theorem). -/
theorem C7_normalizer_shape (input : PyInput) :
    (∀ tc, clean_text_input input = Except.ok tc → isCleanShape tc) ∧
    clean_text_input PyInput.nullLike = Except.ok [] ∧
    clean_text_input PyInput.scalarNonString = Except.ok [] := by
  refine ⟨?_, rfl, rfl⟩
  intro tc htc
  cases input with
  | arrayLike => exact absurd htc (by simp [clean_text_input])
  | nullLike =>
      have hn : ([] : List Char) = tc := by simpa [clean_text_input] using htc
      subst hn
      exact ⟨by simp, by simp, by simp, by simp⟩
  | scalarNonString =>
      have hn : ([] : List Char) = tc := by simpa [clean_text_input] using htc
      subst hn
      exact ⟨by simp, by simp, by simp, by simp⟩
  | str s =>
      have hn : clean_text_harmonized s = tc := by simpa [clean_text_input] using htc
      subst hn
      show isCleanShape (clean_text_harmonized s)
      simp only [clean_text_harmonized]
      have noUpper1 : ∀ c ∈ s.map toLowerA, c.isUpper = false := by
        intro c hc
        obtain ⟨c0, -, hc0⟩ := List.mem_map.mp hc
        rw [← hc0]
        exact toLowerA_not_upper c0
      have pres : ∀ (r : Regex) (u : List Char), (∀ c ∈ u, c.isUpper = false) →
          ∀ c ∈ reSub r [' '] none u, c.isUpper = false := by
        intro r u hu c hc
        rcases reSubGo_chars r [' '] (u.length + 1) none u c hc with h | h
        · simp only [List.mem_singleton] at h
          rw [h]
          rfl
        · exact hu c h
      have noUpper5 : ∀ c ∈ reSub pat4 [' '] none (reSub pat3 [' '] none
          (reSub pat2 [' '] none (reSub pat1 [' '] none (s.map toLowerA)))),
          c.isUpper = false :=
        pres pat4 _ (pres pat3 _ (pres pat2 _ (pres pat1 _ noUpper1)))
      generalize hT5 : reSub pat4 [' '] none (reSub pat3 [' '] none
          (reSub pat2 [' '] none (reSub pat1 [' '] none (s.map toLowerA)))) = T5
          at noUpper5 ⊢
      have ht6 : reSub pat5 [' '] none T5 =
          T5.map (fun c => if !(c.isAlpha || isSpacePy c) then ' ' else c) :=
        reSubGo_cls _ ' ' (T5.length + 1) none T5 (by omega)
      rw [ht6]
      have charset6 : ∀ c ∈ T5.map (fun c => if !(c.isAlpha || isSpacePy c) then ' ' else c),
          ('a' ≤ c ∧ c ≤ 'z') ∨ isSpacePy c = true := by
        intro c hc
        obtain ⟨c0, hc0mem, hc0⟩ := List.mem_map.mp hc
        by_cases hsp : isSpacePy c0 = true
        · right
          rw [← hc0]
          simp [hsp]
        · by_cases hal : c0.isAlpha = true
          · left
            rw [← hc0]
            simp only [hal, Bool.true_or, Bool.not_true, if_false]
            exact isLower_bounds c0 hal (noUpper5 c0 hc0mem)
          · right
            simp only [Bool.not_eq_true] at hal hsp
            have hcond : (!(c0.isAlpha || isSpacePy c0)) = true := by
              rw [hal, hsp]
              rfl
            rw [← hc0, if_pos hcond]
            rfl
      generalize hT6 : T5.map (fun c => if !(c.isAlpha || isSpacePy c) then ' ' else c) = T6
          at charset6 ⊢
      have charset7 : ∀ c ∈ reSub pat6 [' '] none T6, ('a' ≤ c ∧ c ≤ 'z') ∨ c = ' ' := by
        intro c hc
        rcases reSubGo_plus_mem isSpacePy ' ' (T6.length + 1) none T6 c hc with h | ⟨hm, hns⟩
        · exact Or.inr h
        · rcases charset6 c hm with h | h
          · exact Or.inl h
          · rw [h] at hns
            exact absurd hns (by simp)
      have chain7 : (reSub pat6 [' '] none T6).Chain' (fun a b => ¬(a = ' ' ∧ b = ' ')) :=
        reSubGo_plus_chain isSpacePy ' ' rfl (T6.length + 1) none T6 (by omega)
      refine ⟨?_, pyStrip_chain _ chain7, pyStrip_head _, pyStrip_last _⟩
      intro c hc
      exact charset7 c (pyStrip_subset _ c hc)

/-- C7 counterexample: an array-like input raises ValueError in the
normalizer (at the `pd.isnull` truth test) instead of yielding a string,
refuting the claim that no error is raised for every input value. -/
theorem C7_normalizer_counterexample :
    clean_text_input PyInput.arrayLike = Except.error PyExn.valueError ∧
    ∀ tc, clean_text_input PyInput.arrayLike ≠ Except.ok tc :=
  ⟨rfl, fun tc => by simp [clean_text_input]⟩

/-- C7 witness: a concrete mixed input normalizes to `hello world` and
satisfies every clause of the output guarantee. -/
theorem C7_normalizer_shape_witness :
    clean_text_input (PyInput.str (lc "Hello, World! 123")) = Except.ok (lc "hello world") ∧
    isCleanShape (lc "hello world") :=
  ⟨rfl, (C7_normalizer_shape (PyInput.str (lc "Hello, World! 123"))).1
    (lc "hello world") rfl⟩
